import Mathlib

/-!
Verification of the CST-building core of `clang/lib/Tooling/Syntax/BuildTree.cpp`:
a shallow embedding of the pending-forest data structure, the range computers,
the overloaded-operator classification, the name-specifier classification and the
relevant visitor handlers, together with theorems settling the specification's
claims about them.
-/

namespace BuildTree

/-! ## Tokens

A token of the expanded token stream (`syntax::Token` in `Tokens.h`, external to
the core).  We model the lexical kind, an abstract location (its index-like
identity), and whether the token has a spelled counterpart (it did not originate
in a macro expansion), which is what `TokenBuffer::spelledForExpanded` checks. -/

/-- Lexical kind of a token (`tok::TokenKind`); we enumerate the kinds the core
inspects and collapse the rest into `ident` / `other`. -/
inductive TokKind where
  | eof
  | semi
  | coloncolon
  | arrow
  | kw_template
  | kw_extern
  | ident
  | other
deriving DecidableEq, Repr

/-- A preprocessor-expanded token. -/
structure Token where
  kind : TokKind
  loc : Nat
  hasSpelled : Bool
deriving DecidableEq, Repr

/-- Modelled from the spec: `TokenBuffer::spelledForExpanded` (in `Tokens.cpp`,
not under `src/`) maps an expanded-token range to its spelled range and is
absent exactly when a covered token originated in a macro expansion. -/
def spelledForExpanded (toks : List Token) : Option (List Token) :=
  if toks.all (fun t => t.hasSpelled) then some toks else none

/-- The kind of the token at index `i` of the expanded stream; past the end we
answer `eof` (the stream always ends with an `eof` sentinel that is never part
of any range). -/
def tokenKindAt (ts : List Token) (i : Nat) : TokKind :=
  match ts.get? i with
  | some t => t.kind
  | none => TokKind.eof

/-- The sub-list of tokens with indices in `[lo, hi)`, the model of an
`ArrayRef<syntax::Token>` into the expanded stream. -/
def rangeTokens (ts : List Token) (lo hi : Nat) : List Token :=
  (ts.take hi).drop lo

/-! ## CST node kinds and roles (`Nodes.h`) -/

/-- The `syntax::NodeKind` constructors referenced by the core functions we
embed. -/
inductive NodeKind where
  | TranslationUnit
  | UnknownExpression
  | UnknownStatement
  | UnknownDeclaration
  | BinaryOperatorExpression
  | PrefixUnaryOperatorExpression
  | PostfixUnaryOperatorExpression
  | SimpleDeclaration
  | SimpleDeclarator
  | MemberExpression
  | IdExpression
  | UnqualifiedId
  | NestedNameSpecifier
  | ThisExpression
  | GlobalNameSpecifier
  | IdentifierNameSpecifier
  | SimpleTemplateNameSpecifier
  | DecltypeNameSpecifier
deriving DecidableEq, Repr

/-- The `syntax::NodeRole` values referenced by the embedded handlers. -/
inductive NodeRole where
  | Detached
  | Unknown
  | IntroducerKeyword
  | TemplateKeyword
  | IdExpression_qualifier
  | IdExpression_id
  | MemberExpression_object
  | MemberExpression_accessToken
  | MemberExpression_member
  | SimpleDeclaration_declarator
  | OperatorExpression_operatorToken
  | UnaryOperatorExpression_operand
  | BinaryOperatorExpression_leftHandSide
  | BinaryOperatorExpression_rightHandSide
  | List_element
  | List_delimiter
deriving DecidableEq, Repr

/-! ## Overloaded-operator classification (`getOperatorNodeKind`) -/

/-- `clang::OverloadedOperatorKind`, the overloadable operators (plus the two
values the source lists as not overloadable). -/
inductive OverloadedOperatorKind where
  | OO_EqualEqual | OO_ExclaimEqual | OO_Greater | OO_GreaterEqual
  | OO_Less | OO_LessEqual | OO_Spaceship
  | OO_Equal | OO_SlashEqual | OO_PercentEqual | OO_CaretEqual | OO_PipeEqual
  | OO_LessLessEqual | OO_GreaterGreaterEqual | OO_PlusEqual | OO_MinusEqual
  | OO_StarEqual | OO_AmpEqual
  | OO_Slash | OO_Percent | OO_Caret | OO_Pipe | OO_LessLess | OO_GreaterGreater
  | OO_AmpAmp | OO_PipePipe | OO_ArrowStar | OO_Comma
  | OO_Tilde | OO_Exclaim
  | OO_PlusPlus | OO_MinusMinus
  | OO_Plus | OO_Minus | OO_Star | OO_Amp
  | OO_New | OO_Delete | OO_Array_New | OO_Array_Delete
  | OO_Coawait | OO_Call | OO_Subscript | OO_Arrow
  | OO_Conditional | OO_None
deriving DecidableEq, Repr

/-- `getOperatorNodeKind` (BuildTree.cpp, lines 119–197).  The argument count
of the `CXXOperatorCallExpr` is passed explicitly; the branches the source
marks `llvm_unreachable` are `none`. -/
def getOperatorNodeKind (op : OverloadedOperatorKind) (numArgs : Nat) :
    Option NodeKind :=
  match op with
  -- Comparison, assignment, binary computation
  | .OO_EqualEqual | .OO_ExclaimEqual | .OO_Greater | .OO_GreaterEqual
  | .OO_Less | .OO_LessEqual | .OO_Spaceship
  | .OO_Equal | .OO_SlashEqual | .OO_PercentEqual | .OO_CaretEqual
  | .OO_PipeEqual | .OO_LessLessEqual | .OO_GreaterGreaterEqual
  | .OO_PlusEqual | .OO_MinusEqual | .OO_StarEqual | .OO_AmpEqual
  | .OO_Slash | .OO_Percent | .OO_Caret | .OO_Pipe | .OO_LessLess
  | .OO_GreaterGreater | .OO_AmpAmp | .OO_PipePipe | .OO_ArrowStar
  | .OO_Comma =>
      some NodeKind.BinaryOperatorExpression
  | .OO_Tilde | .OO_Exclaim =>
      some NodeKind.PrefixUnaryOperatorExpression
  -- Increment and decrement: shape depends on the argument count
  | .OO_PlusPlus | .OO_MinusMinus =>
      match numArgs with
      | 1 => some NodeKind.PrefixUnaryOperatorExpression
      | 2 => some NodeKind.PostfixUnaryOperatorExpression
      | _ => none
  -- Operators that can be unary or binary
  | .OO_Plus | .OO_Minus | .OO_Star | .OO_Amp =>
      match numArgs with
      | 1 => some NodeKind.PrefixUnaryOperatorExpression
      | 2 => some NodeKind.BinaryOperatorExpression
      | _ => none
  -- Not yet supported by the tree: folded as unknown expressions
  | .OO_New | .OO_Delete | .OO_Array_New | .OO_Array_Delete
  | .OO_Coawait | .OO_Call | .OO_Subscript | .OO_Arrow =>
      some NodeKind.UnknownExpression
  -- Not overloadable
  | .OO_Conditional | .OO_None => none

/-! ## Range computers (`withTrailingSemicolon`, `getStmtRange`,
`maybeAppendSemicolon`)

A token range is an index pair `(lo, hi)` into the expanded stream, covering
`[lo, hi)`.  The stream always carries a trailing `eof` that no range ever
covers, so looking at index `hi` (the token one past the range) is always
meaningful — this is the "We never consume 'eof'" comment in the source. -/

/-- `TreeBuilder::withTrailingSemicolon` (lines 449–457): extend the range by
one token iff it does not already end in a semicolon and the next token is a
semicolon. -/
def withTrailingSemicolon (ts : List Token) (lo hi : Nat) : Nat × Nat :=
  if tokenKindAt ts (hi - 1) ≠ TokKind.semi ∧ tokenKindAt ts hi = TokKind.semi
  then (lo, hi + 1)
  else (lo, hi)

/-- `TreeBuilder::getStmtRange` (lines 425–435).  `isCompound` is
`isa<CompoundStmt>(S)`. -/
def getStmtRange (ts : List Token) (isCompound : Bool) (lo hi : Nat) :
    Nat × Nat :=
  if isCompound then (lo, hi)
  else if tokenKindAt ts (hi - 1) = TokKind.semi then (lo, hi)
  else withTrailingSemicolon ts lo hi

/-- `TreeBuilder::maybeAppendSemicolon` (lines 438–447).  `isNamespace` is
`isa<NamespaceDecl>(D)` and `noSemi` is `DeclsWithoutSemicolons.count(D)`. -/
def maybeAppendSemicolon (ts : List Token) (isNamespace noSemi : Bool)
    (lo hi : Nat) : Nat × Nat :=
  if isNamespace then (lo, hi)
  else if noSemi then (lo, hi)
  else withTrailingSemicolon ts lo hi

/-! ## Name-specifier classification (`getNameSpecifierKind`) -/

/-- `clang::NestedNameSpecifier::SpecifierKind`. -/
inductive NNSKind where
  | Global
  | Namespace
  | NamespaceAlias
  | Identifier
  | TypeSpecWithTemplate
  | TypeSpec
  | Super
deriving DecidableEq, Repr

/-- The shape of the type behind a `TypeSpec` specifier, as far as the three
`isa` tests of the source distinguish it. -/
inductive NNSTypeForm where
  | decltypeForm
  | templateSpecialization
  | dependentTemplateSpecialization
  | otherType
deriving DecidableEq, Repr

/-- Result of classifying a name specifier: a node kind, or the fatal
`report_fatal_error` the source raises for unsupported specifiers. -/
inductive SpecifierResult where
  | ok (k : NodeKind)
  | fatalError (msg : String)
deriving DecidableEq, Repr

/-- `BuildTreeVisitor::getNameSpecifierKind` (lines 794–819).  For a `TypeSpec`
specifier the source inspects the underlying type; `tyForm` carries that
information and is ignored on every other branch. -/
def getNameSpecifierKind (k : NNSKind) (tyForm : NNSTypeForm) :
    SpecifierResult :=
  match k with
  | .Global => .ok NodeKind.GlobalNameSpecifier
  | .Namespace | .NamespaceAlias | .Identifier =>
      .ok NodeKind.IdentifierNameSpecifier
  | .TypeSpecWithTemplate => .ok NodeKind.SimpleTemplateNameSpecifier
  | .TypeSpec =>
      match tyForm with
      | .decltypeForm => .ok NodeKind.DecltypeNameSpecifier
      | .templateSpecialization | .dependentTemplateSpecialization =>
          .ok NodeKind.SimpleTemplateNameSpecifier
      | .otherType => .ok NodeKind.IdentifierNameSpecifier
  | .Super => .fatalError "We don't yet support the __super specifier"

/-! ## CST nodes and the pending forest (`TreeBuilder::Forest`) -/

/-- A CST node (`syntax::Node`): a leaf wrapping one token, or a tree with an
ordered list of children.  Every node carries a role and the `Original` and
`CanModify` flags. -/
inductive Node where
  | leaf (tok : Token) (role : NodeRole) (original canModify : Bool)
  | tree (kind : NodeKind) (children : List Node) (role : NodeRole)
      (original canModify : Bool)

/-- The role of a node. -/
def Node.role : Node → NodeRole
  | .leaf _ r _ _ => r
  | .tree _ _ r _ _ => r

/-- `Node::setRole`. -/
def Node.setRole : Node → NodeRole → Node
  | .leaf t _ o c, r => .leaf t r o c
  | .tree k ch _ o c, r => .tree k ch r o c

/-- The `Original` flag. -/
def Node.original : Node → Bool
  | .leaf _ _ o _ => o
  | .tree _ _ _ o _ => o

/-- The `CanModify` flag. -/
def Node.canModify : Node → Bool
  | .leaf _ _ _ c => c
  | .tree _ _ _ _ c => c

/-- The node's kind, when it is a tree. -/
def Node.treeKind : Node → Option NodeKind
  | .leaf _ _ _ _ => none
  | .tree k _ _ _ _ => some k

mutual

/-- The leaves of a node, in left-to-right order. -/
def leaves : Node → List Token
  | .leaf t _ _ _ => [t]
  | .tree _ cs _ _ _ => leavesList cs

/-- The leaves of a list of nodes, concatenated in order. -/
def leavesList : List Node → List Token
  | [] => []
  | n :: ns => leaves n ++ leavesList ns

end

/-- The pending forest: an ordered association list from first-token index to
the subtree starting at that token (the `std::map<const Token *, Node *> Trees`
of `TreeBuilder::Forest`). -/
abbrev Forest := List (Nat × Node)

/-- The first leaf token of every entry, concatenating the entries' leaves in
forest order. -/
def leavesJoin (forest : Forest) : List Token :=
  (forest.map fun e => leaves e.2).flatten

/-- Whether a forest entry's key falls inside `[lo, hi)`: the entries covered
by a fold over that range. -/
def inRange (lo hi : Nat) (e : Nat × Node) : Bool :=
  decide (lo ≤ e.1) && decide (e.1 < hi)

/-- What `foldChildren`'s reverse loop does to a covered child: a still-
`Detached` child gets role `Unknown` before being attached. -/
def setUnknownIfDetached (n : Node) : Node :=
  if n.role = NodeRole.Detached then n.setRole NodeRole.Unknown else n

/-- Ordered insertion into the forest, the model of `std::map::insert`. -/
def insertByKey (e : Nat × Node) : Forest → Forest
  | [] => [e]
  | x :: xs => if e.1 < x.1 then e :: x :: xs else x :: insertByKey e xs

/-- First entry with the given key, the model of a `std::map` lookup. -/
def lookupKey : Forest → Nat → Option Node
  | [], _ => none
  | e :: es, k => if e.1 = k then some e.2 else lookupKey es k

/-- Can a fold over `[lo, hi)` produce a modifiable node: the

`spelledForExpanded` check of `Forest::foldChildren`. -/
def rangeCanModify (ts : List Token) (lo hi : Nat) : Bool :=
  (spelledForExpanded (rangeTokens ts lo hi)).isSome

/-- `TreeBuilder::Forest::foldChildren` (lines 497–528): collect the entries
covered by `[lo, hi)`, turn their `Detached` roles into `Unknown`, attach them
in token order as children of a fresh tree of kind `k` (built childless, role
`Detached`), mark it original, compute `CanModify` from the spelled tokens,
erase the covered entries and insert the new node keyed at `lo`. -/
def foldChildren (ts : List Token) (forest : Forest) (lo hi : Nat)
    (k : NodeKind) : Forest :=
  insertByKey
    (lo,
      Node.tree k
        ((forest.filter (inRange lo hi)).map fun e => setUnknownIfDetached e.2)
        NodeRole.Detached true (rangeCanModify ts lo hi))
    (forest.filter fun e => !(inRange lo hi e))

/-- `TreeBuilder::Forest::assignRole` (lines 484–495): set the role of the
entry keyed at the given token index. -/
def assignRole (forest : Forest) (key : Nat) (r : NodeRole) : Forest :=
  forest.map fun e => if e.1 = key then (e.1, e.2.setRole r) else e

/-- The initial forest built by the `Forest` constructor (lines 471–482): one
leaf per non-`eof` token, `Original` set, `CanModify` from the token's spelled
counterpart. -/
def initialForest (ts : List Token) : Forest :=
  ts.dropLast.enum.map fun p =>
    (p.1, Node.leaf p.2 NodeRole.Detached true p.2.hasSpelled)

/-- `TreeBuilder::finalize` (lines 337–349): fold all non-`eof` tokens into a
fresh `TranslationUnit` node; `Forest::finalize` (lines 531–536) then requires
the forest to hold exactly one entry and returns it. -/
def treeBuilderFinalize (ts : List Token) (forest : Forest) : Forest :=
  foldChildren ts forest 0 ts.dropLast.length NodeKind.TranslationUnit

/-! ## Declarator chains (`isResponsibleForCreatingDeclaration`,
`processDeclaratorAndDeclaration`) -/

/-- What the chain logic observes of a declarator-bearing declaration: the
dynamic AST kind (`dyn_cast<T>` succeeds between two declarations iff their
tags agree), the begin location, and whether the declarator range computed by
`getDeclaratorRange` has a valid begin location. -/
structure ChainDecl where
  kindTag : Nat
  beginLoc : Nat
  declaratorBeginValid : Bool
deriving DecidableEq, Repr

/-- `TreeBuilder::isResponsibleForCreatingDeclaration` (lines 380–407):
a declarator is responsible for folding the enclosing `SimpleDeclaration` iff
its next sibling declaration in context is absent, of a different AST kind, or
begins at a different location. -/
def isResponsibleForCreatingDeclaration (d : ChainDecl) :
    Option ChainDecl → Bool
  | none => true
  | some next =>
      if next.kindTag ≠ d.kindTag then true
      else if next.beginLoc ≠ d.beginLoc then true
      else false

/-- `BuildTreeVisitor::processDeclaratorAndDeclaration` (lines 1388–1407),
abstracted to the CST nodes it folds, each with the role it is marked with:
a `SimpleDeclarator` marked `SimpleDeclaration_declarator` when the declarator
range has a valid begin, and — only when this declarator is responsible — the
`SimpleDeclaration` for the whole chain (folded with the initial `Detached`
role). -/
def processDeclaratorAndDeclaration (d : ChainDecl) (next : Option ChainDecl) :
    List (NodeKind × NodeRole) :=
  (if d.declaratorBeginValid then
    [(NodeKind.SimpleDeclarator, NodeRole.SimpleDeclaration_declarator)]
  else []) ++
  (if isResponsibleForCreatingDeclaration d next then
    [(NodeKind.SimpleDeclaration, NodeRole.Detached)]
  else [])

/-- The nodes produced when the visitor processes a run of consecutive sibling
declarations `ds` whose successor (the sibling after the run) is `after`: each
declaration sees the next one in context as its sibling. -/
def processChain : List ChainDecl → Option ChainDecl →
    List (NodeKind × NodeRole)
  | [], _ => []
  | [d], after => processDeclaratorAndDeclaration d after
  | d :: d2 :: rest, after =>
      processDeclaratorAndDeclaration d (some d2) ++
        processChain (d2 :: rest) after

/-! ## Operator-call traversal (`TraverseCXXOperatorCallExpr`) -/

/-- What the operator-call traversal observes of a call argument: whether its
source range is valid, and an identity to tell arguments apart. -/
structure OperatorCallArg where
  rangeValid : Bool
  argId : Nat
deriving DecidableEq, Repr

/-- The argument loop of `BuildTreeVisitor::TraverseCXXOperatorCallExpr`
(lines 1045–1066): visit the arguments in order, skipping every argument whose
source range is invalid; the source asserts that a skipped argument only occurs
when the call classifies as a postfix unary operator (`opKind` is the
classification of the whole call), so hitting one otherwise is the assertion
failing (`none`). -/
def traverseOperatorCallArgs (opKind : Option NodeKind) :
    List OperatorCallArg → Option (List OperatorCallArg)
  | [] => some []
  | a :: rest =>
      if a.rangeValid then
        (traverseOperatorCallArgs opKind rest).map (a :: ·)
      else if opKind = some NodeKind.PostfixUnaryOperatorExpression then
        traverseOperatorCallArgs opKind rest
      else none

/-- `TraverseCXXOperatorCallExpr` for a call with operator `op`: classify the
call, then run the argument loop; the returned list is exactly the arguments
the driver recurses into (and hence the only ones that can contribute subtrees
to the folded node). -/
def traverseCXXOperatorCallExpr (op : OverloadedOperatorKind)
    (args : List OperatorCallArg) : Option (List OperatorCallArg) :=
  traverseOperatorCallArgs (getOperatorNodeKind op args.length) args

/-! ## Builder-action traces (member expressions) -/

/-- One call into the `TreeBuilder` made by a handler, in program order:
`fold k recorded` is `foldNode` building a node of kind `k` (with `recorded`
true iff a non-null AST pointer was passed, i.e. the node is added to the
AST→CST mapping); `markNode` sets the role of an already-built tree;
`markTok` sets a token's role; `markExprNode` is `markExprChild`. -/
inductive BuilderAction where
  | fold (k : NodeKind) (recorded : Bool)
  | markNode (k : NodeKind) (r : NodeRole)
  | markTok (r : NodeRole)
  | markExprNode (r : NodeRole)
deriving DecidableEq, Repr

/-- `BuildTreeVisitor::buildIdExpression` (lines 884–909) as its trace of
builder calls.  `recordMapping` is whether the caller passed a non-null `From`
pointer for the `IdExpression` fold. -/
def buildIdExpression (hasQualifier hasTemplateKW recordMapping : Bool) :
    List BuilderAction :=
  (if hasQualifier then
    [BuilderAction.markNode NodeKind.NestedNameSpecifier
        NodeRole.IdExpression_qualifier] ++
      (if hasTemplateKW then [BuilderAction.markTok NodeRole.TemplateKeyword]
       else [])
  else []) ++
  [BuilderAction.fold NodeKind.UnqualifiedId false,
   BuilderAction.markNode NodeKind.UnqualifiedId NodeRole.IdExpression_id,
   BuilderAction.fold NodeKind.IdExpression recordMapping]

/-- `BuildTreeVisitor::WalkUpFromMemberExpr` (lines 911–936) as its trace of
builder calls.  With implicit access only an id-expression is built and
recorded for the AST node; otherwise the id-expression (not recorded) is
marked as the member, the base expression as the object, the `.`/`->` token as
the access token, and a `MemberExpression` is folded and recorded. -/
def walkUpFromMemberExpr (isImplicitAccess hasQualifier hasTemplateKW : Bool) :
    List BuilderAction :=
  if isImplicitAccess then
    buildIdExpression hasQualifier hasTemplateKW true
  else
    buildIdExpression hasQualifier hasTemplateKW false ++
      [BuilderAction.markNode NodeKind.IdExpression
          NodeRole.MemberExpression_member,
       BuilderAction.markExprNode NodeRole.MemberExpression_object,
       BuilderAction.markTok NodeRole.MemberExpression_accessToken,
       BuilderAction.fold NodeKind.MemberExpression true]

/-! ## `this` expressions (`WalkUpFromCXXThisExpr`) -/

/-- `BuildTreeVisitor::WalkUpFromCXXThisExpr` (lines 953–961) acting on the
pending forest: for an implicit `this` nothing at all happens; for an explicit
one the `this` token (the single token of the expression's range, starting at
index `i`) gets role `IntroducerKeyword` and a `ThisExpression` is folded over
it. -/
def walkUpFromCXXThisExpr (ts : List Token) (forest : Forest)
    (isImplicit : Bool) (i : Nat) : Forest :=
  if isImplicit then forest
  else
    foldChildren ts (assignRole forest i NodeRole.IntroducerKeyword) i (i + 1)
      NodeKind.ThisExpression

/-! ## Helper lemmas about nodes and the forest -/

theorem role_setRole (n : Node) (r : NodeRole) : (n.setRole r).role = r := by
  cases n <;> rfl

theorem leaves_setRole (n : Node) (r : NodeRole) :
    leaves (n.setRole r) = leaves n := by
  cases n <;> simp [Node.setRole, leaves]

theorem leaves_setUnknownIfDetached (n : Node) :
    leaves (setUnknownIfDetached n) = leaves n := by
  unfold setUnknownIfDetached
  split <;> simp [leaves_setRole]

theorem setUnknownIfDetached_of_ne (n : Node)
    (h : n.role ≠ NodeRole.Detached) : setUnknownIfDetached n = n := by
  unfold setUnknownIfDetached
  simp [h]

theorem role_setUnknownIfDetached_of_detached (n : Node)
    (h : n.role = NodeRole.Detached) :
    (setUnknownIfDetached n).role = NodeRole.Unknown := by
  unfold setUnknownIfDetached
  simp [h, role_setRole]

theorem leavesList_map_setUnknown (ns : List Node) :
    leavesList (ns.map setUnknownIfDetached) = leavesList ns := by
  induction ns with
  | nil => simp [leavesList]
  | cons n ns ih => simp [leavesList, leaves_setUnknownIfDetached, ih]

theorem leavesJoin_cons (e : Nat × Node) (es : Forest) :
    leavesJoin (e :: es) = leaves e.2 ++ leavesJoin es := by
  simp [leavesJoin]

theorem leavesList_map_snd (forest : Forest) :
    leavesList (forest.map Prod.snd) = leavesJoin forest := by
  induction forest with
  | nil => simp [leavesList, leavesJoin]
  | cons e es ih => rw [List.map_cons, leavesList, leavesJoin_cons, ih]

theorem lookupKey_eq_none_iff (l : Forest) (k : Nat) :
    lookupKey l k = none ↔ ∀ e ∈ l, e.1 ≠ k := by
  induction l with
  | nil => simp [lookupKey]
  | cons e es ih =>
      by_cases h : e.1 = k <;> simp [lookupKey, h, ih]

theorem lookupKey_insertByKey_self (l : Forest) (k : Nat) (n : Node)
    (h : lookupKey l k = none) :
    lookupKey (insertByKey (k, n) l) k = some n := by
  induction l with
  | nil => simp [insertByKey, lookupKey]
  | cons x xs ih =>
      simp only [lookupKey] at h
      by_cases hx : x.1 = k
      · simp [hx] at h
      · simp only [hx, if_false, reduceIte] at h
        by_cases hlt : k < x.1 <;>
          simp [insertByKey, lookupKey, hlt, hx, ih h]

theorem lookupKey_insertByKey_ne (l : Forest) (k k' : Nat) (n : Node)
    (h : k' ≠ k) :
    lookupKey (insertByKey (k, n) l) k' = lookupKey l k' := by
  have hk : ¬(k = k') := fun he => h he.symm
  induction l with
  | nil => simp [insertByKey, lookupKey, hk]
  | cons x xs ih =>
      by_cases hlt : k < x.1
      · simp [insertByKey, lookupKey, hlt, hk]
      · simp only [insertByKey, hlt, if_false, reduceIte]
        by_cases hx : x.1 = k' <;> simp [lookupKey, hx, ih]

theorem assignRole_of_absent (l : Forest) (k : Nat) (r : NodeRole)
    (h : ∀ e ∈ l, e.1 ≠ k) : assignRole l k r = l := by
  unfold assignRole
  induction l with
  | nil => rfl
  | cons x xs ih =>
      simp only [List.map_cons, List.mem_cons] at *
      rw [if_neg (h x (Or.inl rfl)), ih fun e he => h e (Or.inr he)]

theorem assignRole_append (l₁ l₂ : Forest) (k : Nat) (r : NodeRole) :
    assignRole (l₁ ++ l₂) k r = assignRole l₁ k r ++ assignRole l₂ k r := by
  simp [assignRole]

theorem assignRole_cons_self (l : Forest) (k : Nat) (n : Node) (r : NodeRole) :
    assignRole ((k, n) :: l) k r = (k, n.setRole r) :: assignRole l k r := by
  simp [assignRole]

theorem lookupKey_of_mem (l : Forest) (e : Nat × Node)
    (hmem : e ∈ l) (hnd : List.Pairwise (fun a b => a.1 ≠ b.1) l) :
    lookupKey l e.1 = some e.2 := by
  induction l with
  | nil => simp at hmem
  | cons x xs ih =>
      rcases List.mem_cons.mp hmem with h | h
      · subst h
        simp [lookupKey]
      · have hne : x.1 ≠ e.1 := (List.pairwise_cons.mp hnd).1 e h
        simp [lookupKey, hne, ih h (List.pairwise_cons.mp hnd).2]

theorem processDeclaratorAndDeclaration_declarator_role (d : ChainDecl)
    (next : Option ChainDecl) :
    ∀ e ∈ processDeclaratorAndDeclaration d next,
      e.1 = NodeKind.SimpleDeclarator →
      e.2 = NodeRole.SimpleDeclaration_declarator := by
  intro e he
  unfold processDeclaratorAndDeclaration at he
  rcases List.mem_append.mp he with h | h <;> split at h <;> simp_all

theorem processDeclaratorAndDeclaration_countDeclaration (d : ChainDecl)
    (next : Option ChainDecl) :
    List.countP (fun e => decide (e.1 = NodeKind.SimpleDeclaration))
        (processDeclaratorAndDeclaration d next)
      = if isResponsibleForCreatingDeclaration d next then 1 else 0 := by
  cases hv : d.declaratorBeginValid <;>
    cases hr : isResponsibleForCreatingDeclaration d next <;>
    simp [processDeclaratorAndDeclaration, hv, hr, List.countP_append,
      List.countP_cons]

theorem processDeclaratorAndDeclaration_countDeclarator (d : ChainDecl)
    (next : Option ChainDecl) :
    List.countP (fun e => decide (e.1 = NodeKind.SimpleDeclarator))
        (processDeclaratorAndDeclaration d next)
      = if d.declaratorBeginValid then 1 else 0 := by
  cases hv : d.declaratorBeginValid <;>
    cases hr : isResponsibleForCreatingDeclaration d next <;>
    simp [processDeclaratorAndDeclaration, hv, hr, List.countP_append,
      List.countP_cons]

theorem processDeclaratorAndDeclaration_getLast (d : ChainDecl)
    (next : Option ChainDecl)
    (h : isResponsibleForCreatingDeclaration d next = true) :
    (processDeclaratorAndDeclaration d next).getLast?
      = some (NodeKind.SimpleDeclaration, NodeRole.Detached) := by
  cases hv : d.declaratorBeginValid <;>
    simp [processDeclaratorAndDeclaration, hv, h]

/-! ## Theorems settling the claims -/

/-- Claim C1: for every valid input — a non-empty expanded token stream ending
in `eof`, and a pending forest whose entries (the subtrees the well-formed AST
traversal left behind) cover exactly the non-`eof` tokens — the final fold of
`TreeBuilder::finalize` leaves the forest with exactly one entry, keyed at the
first token: a `TranslationUnit` root whose leaves, in left-to-right order, are
exactly the expanded token stream minus the trailing `eof` token. -/
theorem buildSyntaxTree_root_covers_tokens (ts : List Token) (forest : Forest)
    (heof : (ts.map Token.kind).getLast? = some TokKind.eof)
    (hkeys : ∀ e ∈ forest, e.1 < ts.dropLast.length)
    (hcover : leavesJoin forest = ts.dropLast) :
    ∃ root : Node,
      treeBuilderFinalize ts forest = [(0, root)] ∧
      root.treeKind = some NodeKind.TranslationUnit ∧
      leaves root = ts.dropLast := by
  refine ⟨Node.tree NodeKind.TranslationUnit
      (forest.map fun e => setUnknownIfDetached e.2) NodeRole.Detached true
      (rangeCanModify ts 0 ts.dropLast.length), ?_, rfl, ?_⟩
  · have h1 : forest.filter (inRange 0 ts.dropLast.length) = forest := by
      rw [List.filter_eq_self]
      intro e he
      have h := hkeys e he
      simp only [List.length_dropLast] at h
      simp [inRange]
      omega
    have h2 :
        (forest.filter fun e => !inRange 0 ts.dropLast.length e) = [] := by
      rw [List.filter_eq_nil_iff]
      intro e he
      have h := hkeys e he
      simp only [List.length_dropLast] at h
      simp [inRange]
      omega
    unfold treeBuilderFinalize foldChildren
    rw [h1, h2]
    rfl
  · have hmap : (forest.map fun e => setUnknownIfDetached e.2)
        = (forest.map Prod.snd).map setUnknownIfDetached := by
      rw [List.map_map]
      rfl
    simp only [leaves, hmap, leavesList_map_setUnknown, leavesList_map_snd]
    exact hcover

/-- Witness for C1: a concrete stream `x ; <eof>` with the forest of its two
non-`eof` leaves satisfies the hypotheses, and the final fold produces the
single `TranslationUnit` root covering `x ;`. -/
theorem buildSyntaxTree_root_covers_tokens_witness :
    ((([⟨TokKind.ident, 0, true⟩, ⟨TokKind.semi, 1, true⟩,
        ⟨TokKind.eof, 2, true⟩] : List Token).map Token.kind).getLast?
      = some TokKind.eof) ∧
    (∀ e ∈ ([(0, Node.leaf ⟨TokKind.ident, 0, true⟩ NodeRole.Detached true
          true),
        (1, Node.leaf ⟨TokKind.semi, 1, true⟩ NodeRole.Detached true true)] :
        Forest),
      e.1 < ([⟨TokKind.ident, 0, true⟩, ⟨TokKind.semi, 1, true⟩,
        ⟨TokKind.eof, 2, true⟩] : List Token).dropLast.length) ∧
    leavesJoin
      [(0, Node.leaf ⟨TokKind.ident, 0, true⟩ NodeRole.Detached true true),
       (1, Node.leaf ⟨TokKind.semi, 1, true⟩ NodeRole.Detached true true)]
      = ([⟨TokKind.ident, 0, true⟩, ⟨TokKind.semi, 1, true⟩,
          ⟨TokKind.eof, 2, true⟩] : List Token).dropLast ∧
    ∃ root : Node,
      treeBuilderFinalize
          [⟨TokKind.ident, 0, true⟩, ⟨TokKind.semi, 1, true⟩,
            ⟨TokKind.eof, 2, true⟩]
          [(0, Node.leaf ⟨TokKind.ident, 0, true⟩ NodeRole.Detached true true),
           (1, Node.leaf ⟨TokKind.semi, 1, true⟩ NodeRole.Detached true true)]
        = [(0, root)] ∧
      root.treeKind = some NodeKind.TranslationUnit ∧
      leaves root
        = ([⟨TokKind.ident, 0, true⟩, ⟨TokKind.semi, 1, true⟩,
            ⟨TokKind.eof, 2, true⟩] : List Token).dropLast :=
  ⟨by rfl, by decide, by rfl,
    buildSyntaxTree_root_covers_tokens _ _ (by rfl) (by decide) (by rfl)⟩

/-- Claim C2: for every overloaded-operator call expression the CST node kind
produced by `getOperatorNodeKind` equals the classification table: comparison
operators, all assignments, `/ % ^ | << >> && || ->*` and comma give
`BinaryOperatorExpression` (whatever the argument count the source does not
inspect it for these); `~` and `!` give `PrefixUnaryOperatorExpression`;
`++`/`--` give prefix unary with one argument and postfix unary with two;
`+ - * &` give prefix unary with one argument and binary with two; `new`,
`delete`, array `new`/`delete`, `co_await`, `()`, `[]` and `->` give
`UnknownExpression`. -/
theorem getOperatorNodeKind_matches_table :
    (∀ n : Nat,
      getOperatorNodeKind .OO_EqualEqual n = some .BinaryOperatorExpression ∧
      getOperatorNodeKind .OO_ExclaimEqual n = some .BinaryOperatorExpression ∧
      getOperatorNodeKind .OO_Less n = some .BinaryOperatorExpression ∧
      getOperatorNodeKind .OO_Greater n = some .BinaryOperatorExpression ∧
      getOperatorNodeKind .OO_LessEqual n = some .BinaryOperatorExpression ∧
      getOperatorNodeKind .OO_GreaterEqual n = some .BinaryOperatorExpression ∧
      getOperatorNodeKind .OO_Spaceship n = some .BinaryOperatorExpression ∧
      getOperatorNodeKind .OO_Equal n = some .BinaryOperatorExpression ∧
      getOperatorNodeKind .OO_SlashEqual n = some .BinaryOperatorExpression ∧
      getOperatorNodeKind .OO_PercentEqual n = some .BinaryOperatorExpression ∧
      getOperatorNodeKind .OO_CaretEqual n = some .BinaryOperatorExpression ∧
      getOperatorNodeKind .OO_PipeEqual n = some .BinaryOperatorExpression ∧
      getOperatorNodeKind .OO_LessLessEqual n = some .BinaryOperatorExpression ∧
      getOperatorNodeKind .OO_GreaterGreaterEqual n
        = some .BinaryOperatorExpression ∧
      getOperatorNodeKind .OO_PlusEqual n = some .BinaryOperatorExpression ∧
      getOperatorNodeKind .OO_MinusEqual n = some .BinaryOperatorExpression ∧
      getOperatorNodeKind .OO_StarEqual n = some .BinaryOperatorExpression ∧
      getOperatorNodeKind .OO_AmpEqual n = some .BinaryOperatorExpression ∧
      getOperatorNodeKind .OO_Slash n = some .BinaryOperatorExpression ∧
      getOperatorNodeKind .OO_Percent n = some .BinaryOperatorExpression ∧
      getOperatorNodeKind .OO_Caret n = some .BinaryOperatorExpression ∧
      getOperatorNodeKind .OO_Pipe n = some .BinaryOperatorExpression ∧
      getOperatorNodeKind .OO_LessLess n = some .BinaryOperatorExpression ∧
      getOperatorNodeKind .OO_GreaterGreater n
        = some .BinaryOperatorExpression ∧
      getOperatorNodeKind .OO_AmpAmp n = some .BinaryOperatorExpression ∧
      getOperatorNodeKind .OO_PipePipe n = some .BinaryOperatorExpression ∧
      getOperatorNodeKind .OO_ArrowStar n = some .BinaryOperatorExpression ∧
      getOperatorNodeKind .OO_Comma n = some .BinaryOperatorExpression ∧
      getOperatorNodeKind .OO_Tilde n = some .PrefixUnaryOperatorExpression ∧
      getOperatorNodeKind .OO_Exclaim n = some .PrefixUnaryOperatorExpression ∧
      getOperatorNodeKind .OO_New n = some .UnknownExpression ∧
      getOperatorNodeKind .OO_Delete n = some .UnknownExpression ∧
      getOperatorNodeKind .OO_Array_New n = some .UnknownExpression ∧
      getOperatorNodeKind .OO_Array_Delete n = some .UnknownExpression ∧
      getOperatorNodeKind .OO_Coawait n = some .UnknownExpression ∧
      getOperatorNodeKind .OO_Call n = some .UnknownExpression ∧
      getOperatorNodeKind .OO_Subscript n = some .UnknownExpression ∧
      getOperatorNodeKind .OO_Arrow n = some .UnknownExpression) ∧
    getOperatorNodeKind .OO_PlusPlus 1 = some .PrefixUnaryOperatorExpression ∧
    getOperatorNodeKind .OO_PlusPlus 2 = some .PostfixUnaryOperatorExpression ∧
    getOperatorNodeKind .OO_MinusMinus 1
      = some .PrefixUnaryOperatorExpression ∧
    getOperatorNodeKind .OO_MinusMinus 2
      = some .PostfixUnaryOperatorExpression ∧
    getOperatorNodeKind .OO_Plus 1 = some .PrefixUnaryOperatorExpression ∧
    getOperatorNodeKind .OO_Plus 2 = some .BinaryOperatorExpression ∧
    getOperatorNodeKind .OO_Minus 1 = some .PrefixUnaryOperatorExpression ∧
    getOperatorNodeKind .OO_Minus 2 = some .BinaryOperatorExpression ∧
    getOperatorNodeKind .OO_Star 1 = some .PrefixUnaryOperatorExpression ∧
    getOperatorNodeKind .OO_Star 2 = some .BinaryOperatorExpression ∧
    getOperatorNodeKind .OO_Amp 1 = some .PrefixUnaryOperatorExpression ∧
    getOperatorNodeKind .OO_Amp 2 = some .BinaryOperatorExpression := by
  constructor
  · intro n
    repeat' apply And.intro
    all_goals rfl
  · repeat' apply And.intro
    all_goals rfl

/-- Claim C9: classifying a nested-name-specifier of the unsupported
Microsoft `__super` kind aborts with a fatal "not yet supported" error instead
of producing a node kind, and every supported kind classifies without error:
`GlobalNameSpecifier` for the `::` root, `DecltypeNameSpecifier` for a
`decltype` specifier, `SimpleTemplateNameSpecifier` for a template
specialization (the `template`-qualified kind as well as the plain and
dependent specialization types), and `IdentifierNameSpecifier` otherwise. -/
theorem getNameSpecifierKind_classification :
    (∀ t, getNameSpecifierKind .Super t =
      .fatalError "We don't yet support the __super specifier") ∧
    (∀ t, getNameSpecifierKind .Global t = .ok .GlobalNameSpecifier) ∧
    (∀ t, getNameSpecifierKind .Namespace t
      = .ok .IdentifierNameSpecifier) ∧
    (∀ t, getNameSpecifierKind .NamespaceAlias t
      = .ok .IdentifierNameSpecifier) ∧
    (∀ t, getNameSpecifierKind .Identifier t
      = .ok .IdentifierNameSpecifier) ∧
    (∀ t, getNameSpecifierKind .TypeSpecWithTemplate t
      = .ok .SimpleTemplateNameSpecifier) ∧
    getNameSpecifierKind .TypeSpec .decltypeForm
      = .ok .DecltypeNameSpecifier ∧
    getNameSpecifierKind .TypeSpec .templateSpecialization
      = .ok .SimpleTemplateNameSpecifier ∧
    getNameSpecifierKind .TypeSpec .dependentTemplateSpecialization
      = .ok .SimpleTemplateNameSpecifier ∧
    getNameSpecifierKind .TypeSpec .otherType
      = .ok .IdentifierNameSpecifier ∧
    (∀ k t, (∃ m, getNameSpecifierKind k t = .fatalError m) ↔ k = .Super) := by
  refine ⟨fun t => rfl, fun t => rfl, fun t => rfl, fun t => rfl, fun t => rfl,
    fun t => rfl, rfl, rfl, rfl, rfl, fun k t => ?_⟩
  cases k <;> cases t <;>
    simp [getNameSpecifierKind]

/-- Claim C3: for a statement that is not a compound statement, the computed
statement token range is the AST-range tokens extended by exactly one token
when the token immediately following the range is a semicolon and the range
does not already end in a semicolon, and is unchanged otherwise; a compound
statement's range is never extended. -/
theorem getStmtRange_semicolon_extension (ts : List Token) (isCompound : Bool)
    (lo hi : Nat) :
    getStmtRange ts isCompound lo hi =
      if isCompound = true then (lo, hi)
      else if tokenKindAt ts hi = TokKind.semi ∧
          tokenKindAt ts (hi - 1) ≠ TokKind.semi then (lo, hi + 1)
      else (lo, hi) := by
  cases isCompound <;>
    simp only [getStmtRange, withTrailingSemicolon, Bool.false_eq_true,
      if_false, if_true, reduceIte] <;>
    split_ifs <;> tauto

/-- Claim C4 counterexample: the claim's three conditions (a semicolon right
after the declaration's tokens, not a namespace, not marked no-semicolon) do
not suffice for the range to take in that semicolon — when the range already
ends in a semicolon, `withTrailingSemicolon` leaves it alone.  Take the token
stream `; ; <eof>` and the one-token declaration range `[0, 1)`: token 1 is a
semicolon, the declaration is not a namespace and is not marked, yet the
computed range stays `[0, 1)` and does not cover token 1. -/
theorem maybeAppendSemicolon_claim_counterexample :
    ¬ ((maybeAppendSemicolon
          [⟨TokKind.semi, 0, true⟩, ⟨TokKind.semi, 1, true⟩,
            ⟨TokKind.eof, 2, true⟩] false false 0 1 = (0, 2)) ↔
        tokenKindAt
          [⟨TokKind.semi, 0, true⟩, ⟨TokKind.semi, 1, true⟩,
            ⟨TokKind.eof, 2, true⟩] 1 = TokKind.semi) := by
  decide

/-- Claim C4 (amended): the computed declaration token range is extended to
take in the following semicolon token if and only if a semicolon is present
immediately after the declaration's tokens, the declaration is not a
namespace, the declaration has not been marked "no-semicolon", and the
declaration's tokens do not already end in a semicolon; otherwise the range is
unchanged. -/
theorem maybeAppendSemicolon_spec (ts : List Token) (isNamespace noSemi : Bool)
    (lo hi : Nat) :
    maybeAppendSemicolon ts isNamespace noSemi lo hi =
      if tokenKindAt ts hi = TokKind.semi ∧ isNamespace = false ∧
          noSemi = false ∧ tokenKindAt ts (hi - 1) ≠ TokKind.semi
      then (lo, hi + 1)
      else (lo, hi) := by
  cases isNamespace <;> cases noSemi <;>
    simp only [maybeAppendSemicolon, withTrailingSemicolon,
      Bool.false_eq_true, Bool.true_eq_false, if_false, if_true, reduceIte] <;>
    split_ifs <;> tauto

/-- Claim C6: `foldChildren`, on a forest sorted by first token and a range
`[lo, hi)` aligned with its entries, inserts a fresh node keyed at the range's
first token whose children are exactly the covered entries in token order
(each still-`Detached` one set to `Unknown`, the already-marked ones kept as
they are), with the node built childless (children come only from the covered
entries), role `Detached`, `original` true, and `canModify` set; the covered
entries disappear from the forest, the uncovered ones survive untouched, and
`canModify` is true iff every covered token has a spelled counterpart. -/
theorem foldChildren_spec (ts : List Token) (forest : Forest) (lo hi : Nat)
    (k : NodeKind)
    (hlo : lo < hi)
    (hsorted : List.Pairwise (fun a b => a.1 < b.1) forest) :
    lookupKey (foldChildren ts forest lo hi k) lo =
      some (Node.tree k
        ((forest.filter (inRange lo hi)).map fun e => setUnknownIfDetached e.2)
        NodeRole.Detached true (rangeCanModify ts lo hi)) ∧
    List.Pairwise (fun a b => a.1 < b.1) (forest.filter (inRange lo hi)) ∧
    (∀ e ∈ forest, inRange lo hi e = true → e.1 ≠ lo →
      lookupKey (foldChildren ts forest lo hi k) e.1 = none) ∧
    (∀ e ∈ forest, inRange lo hi e = false →
      lookupKey (foldChildren ts forest lo hi k) e.1 = some e.2) ∧
    (∀ e ∈ forest.filter (inRange lo hi),
      (e.2.role = NodeRole.Detached →
        (setUnknownIfDetached e.2).role = NodeRole.Unknown) ∧
      (e.2.role ≠ NodeRole.Detached → setUnknownIfDetached e.2 = e.2)) ∧
    (rangeCanModify ts lo hi = true ↔
      ∀ t ∈ rangeTokens ts lo hi, t.hasSpelled = true) := by
  have hkeyOnly : ∀ (e f : Nat × Node), e.1 = f.1 →
      inRange lo hi e = inRange lo hi f := by
    intro e f hef
    simp [inRange, hef]
  have hrest : ∀ e ∈ forest.filter (fun e => !inRange lo hi e),
      inRange lo hi e = false := by
    intro e he
    have := (List.mem_filter.mp he).2
    simpa using this
  refine ⟨?_, hsorted.filter _, ?_, ?_, ?_, ?_⟩
  · unfold foldChildren
    apply lookupKey_insertByKey_self
    rw [lookupKey_eq_none_iff]
    intro e he heq
    have h1 := hrest e he
    rw [hkeyOnly e (lo, e.2) heq] at h1
    simp [inRange, hlo] at h1
  · intro e hmem hin hne
    unfold foldChildren
    rw [lookupKey_insertByKey_ne _ _ _ _ hne]
    rw [lookupKey_eq_none_iff]
    intro f hf heq
    have h1 := hrest f hf
    rw [hkeyOnly f e heq] at h1
    rw [hin] at h1
    exact Bool.true_eq_false.mp h1
  · intro e hmem hnin
    have hne : e.1 ≠ lo := by
      intro heq
      have := hkeyOnly e (lo, e.2) heq
      rw [hnin] at this
      simp [inRange, hlo] at this
    unfold foldChildren
    rw [lookupKey_insertByKey_ne _ _ _ _ hne]
    apply lookupKey_of_mem
    · rw [List.mem_filter]
      exact ⟨hmem, by simp [hnin]⟩
    · exact (hsorted.filter _).imp fun h => Nat.ne_of_lt h
  · intro e _
    exact ⟨role_setUnknownIfDetached_of_detached e.2,
      setUnknownIfDetached_of_ne e.2⟩
  · unfold rangeCanModify spelledForExpanded
    split <;> rename_i hall
    · simpa [List.all_eq_true] using hall
    · constructor
      · intro hf
        simp at hf
      · intro hf
        exact absurd (List.all_eq_true.mpr fun t ht => hf t ht) hall

/-- Witness for C6: folding the range `[0, 2)` of the stream `x ; <eof>` over
the initial two-leaf forest (which satisfies both hypotheses) produces, at
key 0, the new node with the two former entries as children. -/
theorem foldChildren_spec_witness :
    (0 : Nat) < 2 ∧
    List.Pairwise (fun a b => a.1 < b.1)
      ([(0, Node.leaf ⟨TokKind.ident, 0, true⟩ NodeRole.Detached true true),
        (1, Node.leaf ⟨TokKind.semi, 1, true⟩ NodeRole.Detached true true)] :
        Forest) ∧
    lookupKey
        (foldChildren
          [⟨TokKind.ident, 0, true⟩, ⟨TokKind.semi, 1, true⟩,
            ⟨TokKind.eof, 2, true⟩]
          [(0, Node.leaf ⟨TokKind.ident, 0, true⟩ NodeRole.Detached true true),
            (1, Node.leaf ⟨TokKind.semi, 1, true⟩ NodeRole.Detached true true)]
          0 2 NodeKind.SimpleDeclaration) 0 =
      some (Node.tree NodeKind.SimpleDeclaration
        ((([(0, Node.leaf ⟨TokKind.ident, 0, true⟩ NodeRole.Detached true
              true),
            (1, Node.leaf ⟨TokKind.semi, 1, true⟩ NodeRole.Detached true
              true)] : Forest).filter
            (inRange 0 2)).map fun e => setUnknownIfDetached e.2)
        NodeRole.Detached true
        (rangeCanModify
          [⟨TokKind.ident, 0, true⟩, ⟨TokKind.semi, 1, true⟩,
            ⟨TokKind.eof, 2, true⟩] 0 2)) :=
  ⟨by decide, by decide,
    (foldChildren_spec _ _ 0 2 _ (by decide) (by decide)).1⟩

/-- Claim C8: for a member expression with implicit access the handler builds
an id-expression only — its trace is exactly `buildIdExpression` with the AST
node recorded for the `IdExpression` fold, and no `MemberExpression` node is
folded; with an explicit object expression a `MemberExpression` is folded and
recorded, with the base marked `MemberExpression_object`, the `.`/`->` token
marked `MemberExpression_accessToken` and the id-expression marked
`MemberExpression_member`. -/
theorem walkUpFromMemberExpr_spec :
    ∀ hasQualifier hasTemplateKW : Bool,
      (walkUpFromMemberExpr true hasQualifier hasTemplateKW =
          buildIdExpression hasQualifier hasTemplateKW true ∧
        (∀ b, BuilderAction.fold NodeKind.MemberExpression b ∉
          walkUpFromMemberExpr true hasQualifier hasTemplateKW) ∧
        BuilderAction.fold NodeKind.IdExpression true ∈
          walkUpFromMemberExpr true hasQualifier hasTemplateKW) ∧
      (BuilderAction.fold NodeKind.MemberExpression true ∈
          walkUpFromMemberExpr false hasQualifier hasTemplateKW ∧
        BuilderAction.markExprNode NodeRole.MemberExpression_object ∈
          walkUpFromMemberExpr false hasQualifier hasTemplateKW ∧
        BuilderAction.markTok NodeRole.MemberExpression_accessToken ∈
          walkUpFromMemberExpr false hasQualifier hasTemplateKW ∧
        BuilderAction.markNode NodeKind.IdExpression
            NodeRole.MemberExpression_member ∈
          walkUpFromMemberExpr false hasQualifier hasTemplateKW ∧
        BuilderAction.fold NodeKind.IdExpression false ∈
          walkUpFromMemberExpr false hasQualifier hasTemplateKW) := by
  intro hasQualifier hasTemplateKW
  cases hasQualifier <;> cases hasTemplateKW <;> decide

/-- Claim C10: for an implicit `CXXThisExpr` the visitor does nothing — the
pending forest is returned unchanged, so no node is created, no role assigned
and nothing folded; for an explicit `this` (the forest holding the detached
entry for the `this` token at key `i`, surrounded by entries with smaller and
larger keys) a `ThisExpression` tree is folded over the single-token range
whose only child is that entry with role `IntroducerKeyword`. -/
theorem walkUpFromCXXThisExpr_spec (ts : List Token) (pre post : Forest)
    (nd : Node) (i : Nat)
    (hpre : ∀ e ∈ pre, e.1 < i) (hpost : ∀ e ∈ post, i < e.1) :
    (∀ f : Forest, walkUpFromCXXThisExpr ts f true i = f) ∧
    lookupKey (walkUpFromCXXThisExpr ts (pre ++ (i, nd) :: post) false i) i =
      some (Node.tree NodeKind.ThisExpression
        [nd.setRole NodeRole.IntroducerKeyword]
        NodeRole.Detached true (rangeCanModify ts i (i + 1))) := by
  constructor
  · intro f
    rfl
  · have hassign : assignRole (pre ++ (i, nd) :: post) i
        NodeRole.IntroducerKeyword =
        pre ++ (i, nd.setRole NodeRole.IntroducerKeyword) :: post := by
      rw [assignRole_append, assignRole_cons_self,
        assignRole_of_absent pre i _ fun e he => Nat.ne_of_lt (hpre e he),
        assignRole_of_absent post i _ fun e he =>
          (Nat.ne_of_lt (hpost e he)).symm]
    have hpreT : pre.filter (inRange i (i + 1)) = [] := by
      rw [List.filter_eq_nil_iff]
      intro e he
      have := hpre e he
      simp [inRange]
      omega
    have hpostT : post.filter (inRange i (i + 1)) = [] := by
      rw [List.filter_eq_nil_iff]
      intro e he
      have := hpost e he
      simp [inRange]
      omega
    have hpreR : (pre.filter fun e => !inRange i (i + 1) e) = pre := by
      rw [List.filter_eq_self]
      intro e he
      have := hpre e he
      simp [inRange]
      omega
    have hpostR : (post.filter fun e => !inRange i (i + 1) e) = post := by
      rw [List.filter_eq_self]
      intro e he
      have := hpost e he
      simp [inRange]
      omega
    have hself : inRange i (i + 1)
        (i, nd.setRole NodeRole.IntroducerKeyword) = true := by
      simp [inRange]
    have hnotself : (!inRange i (i + 1)
        (i, nd.setRole NodeRole.IntroducerKeyword)) = false := by
      simp [hself]
    unfold walkUpFromCXXThisExpr
    rw [if_neg (by simp), hassign]
    unfold foldChildren
    simp only [List.filter_append, List.filter_cons, hself, hnotself, hpreT,
      hpostT, hpreR, hpostR, if_true, if_false, reduceIte, List.map_cons,
      List.map_nil, List.nil_append]
    rw [setUnknownIfDetached_of_ne _ (by rw [role_setRole]; decide)]
    apply lookupKey_insertByKey_self
    rw [lookupKey_eq_none_iff]
    intro e he
    rcases List.mem_append.mp he with h | h
    · exact Nat.ne_of_lt (hpre e h)
    · exact (Nat.ne_of_lt (hpost e h)).symm

/-- Witness for C10: with the stream `x ; <eof>`, a forest holding the `this`
leaf at key 0 and one later entry, the implicit branch returns the forest
unchanged and the explicit branch folds the `ThisExpression` over token 0. -/
theorem walkUpFromCXXThisExpr_spec_witness :
    (∀ e ∈ ([] : Forest), e.1 < 0) ∧
    (∀ e ∈ ([(1, Node.leaf ⟨TokKind.semi, 1, true⟩ NodeRole.Detached true
        true)] : Forest), 0 < e.1) ∧
    lookupKey
        (walkUpFromCXXThisExpr
          [⟨TokKind.ident, 0, true⟩, ⟨TokKind.semi, 1, true⟩,
            ⟨TokKind.eof, 2, true⟩]
          ([] ++ (0, Node.leaf ⟨TokKind.ident, 0, true⟩ NodeRole.Detached true
              true) ::
            [(1, Node.leaf ⟨TokKind.semi, 1, true⟩ NodeRole.Detached true
              true)])
          false 0) 0 =
      some (Node.tree NodeKind.ThisExpression
        [(Node.leaf ⟨TokKind.ident, 0, true⟩ NodeRole.Detached true
            true).setRole NodeRole.IntroducerKeyword]
        NodeRole.Detached true
        (rangeCanModify
          [⟨TokKind.ident, 0, true⟩, ⟨TokKind.semi, 1, true⟩,
            ⟨TokKind.eof, 2, true⟩] 0 1)) :=
  ⟨by decide, by decide,
    (walkUpFromCXXThisExpr_spec _ _ _ _ 0 (by decide) (by decide)).2⟩

/-- Claim C5: in a comma-chain of declarators sharing one declaration (a
non-empty run of consecutive sibling declarations with equal AST kind and
equal begin location, whose following sibling — if any — breaks the chain),
exactly one `SimpleDeclaration` node is folded, and it is folded last, i.e. by
the last declarator of the chain; `isResponsibleForCreatingDeclaration` holds
of a declarator iff its next sibling in context is absent, of a different AST
kind, or begins at a different location; and every declarator whose declarator
range has a valid begin produces exactly one `SimpleDeclarator` node, marked
`SimpleDeclaration_declarator`. -/
theorem processChain_single_declaration (k b : Nat) (ds : List ChainDecl) :
    ∀ after : Option ChainDecl,
      ds ≠ [] →
      (∀ d ∈ ds, d.kindTag = k ∧ d.beginLoc = b) →
      (∀ a, after = some a → a.kindTag ≠ k ∨ a.beginLoc ≠ b) →
      List.countP (fun e => decide (e.1 = NodeKind.SimpleDeclaration))
          (processChain ds after) = 1 ∧
      (processChain ds after).getLast?
        = some (NodeKind.SimpleDeclaration, NodeRole.Detached) ∧
      (∀ e ∈ processChain ds after, e.1 = NodeKind.SimpleDeclarator →
        e.2 = NodeRole.SimpleDeclaration_declarator) ∧
      List.countP (fun e => decide (e.1 = NodeKind.SimpleDeclarator))
          (processChain ds after)
        = List.countP (fun d => d.declaratorBeginValid) ds ∧
      (∀ d next, isResponsibleForCreatingDeclaration d next = true ↔
        (next = none ∨ ∃ a, next = some a ∧
          (a.kindTag ≠ d.kindTag ∨ a.beginLoc ≠ d.beginLoc))) := by
  have hiff : ∀ (d : ChainDecl) (next : Option ChainDecl),
      isResponsibleForCreatingDeclaration d next = true ↔
        (next = none ∨ ∃ a, next = some a ∧
          (a.kindTag ≠ d.kindTag ∨ a.beginLoc ≠ d.beginLoc)) := by
    intro d next
    cases next with
    | none => simp [isResponsibleForCreatingDeclaration]
    | some a =>
        simp only [isResponsibleForCreatingDeclaration]
        split_ifs with h1 h2 <;> simp_all
  induction ds with
  | nil =>
      intro after hne
      exact absurd rfl hne
  | cons d tail ih =>
      intro after _ hchain hafter
      cases tail with
      | nil =>
          have hd := hchain d (List.mem_cons_self d [])
          have hresp : isResponsibleForCreatingDeclaration d after = true := by
            rw [hiff]
            cases after with
            | none => exact Or.inl rfl
            | some a =>
                refine Or.inr ⟨a, rfl, ?_⟩
                rw [hd.1, hd.2]
                exact hafter a rfl
          have hsplit : processChain [d] after =
              processDeclaratorAndDeclaration d after := rfl
          refine ⟨?_, ?_, ?_, ?_, hiff⟩
          · rw [hsplit, processDeclaratorAndDeclaration_countDeclaration,
              hresp]
            rfl
          · rw [hsplit]
            exact processDeclaratorAndDeclaration_getLast d after hresp
          · rw [hsplit]
            exact processDeclaratorAndDeclaration_declarator_role d after
          · rw [hsplit, processDeclaratorAndDeclaration_countDeclarator,
              List.countP_cons]
            simp
      | cons d2 rest =>
          have hd := hchain d (List.mem_cons_self d (d2 :: rest))
          have hd2 := hchain d2
            (List.mem_cons_of_mem d (List.mem_cons_self d2 rest))
          have hresp : isResponsibleForCreatingDeclaration d (some d2)
              = false := by
            simp [isResponsibleForCreatingDeclaration, hd.1, hd.2, hd2.1,
              hd2.2]
          obtain ⟨ih1, ih2, ih3, ih4, _⟩ := ih after (by simp)
            (fun e he => hchain e (List.mem_cons_of_mem d he)) hafter
          have hsplit : processChain (d :: d2 :: rest) after =
              processDeclaratorAndDeclaration d (some d2) ++
                processChain (d2 :: rest) after := by
            rfl
          refine ⟨?_, ?_, ?_, ?_, hiff⟩
          · rw [hsplit, List.countP_append, ih1,
              processDeclaratorAndDeclaration_countDeclaration, hresp]
            rfl
          · rw [hsplit, List.getLast?_append, ih2]
            rfl
          · rw [hsplit]
            intro e he hkind
            rcases List.mem_append.mp he with h | h
            · exact processDeclaratorAndDeclaration_declarator_role d
                (some d2) e h hkind
            · exact ih3 e h hkind
          · rw [hsplit, List.countP_append, ih4,
              processDeclaratorAndDeclaration_countDeclarator]
            cases hvalid : d.declaratorBeginValid <;>
              simp [List.countP_cons, hvalid] <;> omega

/-- Witness for C5: the two-declarator chain `⟨kind 7, loc 3⟩, ⟨kind 7, loc 3⟩`
with no following sibling satisfies the hypotheses; exactly one
`SimpleDeclaration` is folded and it is the last node produced. -/
theorem processChain_single_declaration_witness :
    (([⟨7, 3, true⟩, ⟨7, 3, true⟩] : List ChainDecl) ≠ []) ∧
    (∀ d ∈ ([⟨7, 3, true⟩, ⟨7, 3, true⟩] : List ChainDecl),
      d.kindTag = 7 ∧ d.beginLoc = 3) ∧
    List.countP (fun e => decide (e.1 = NodeKind.SimpleDeclaration))
        (processChain [⟨7, 3, true⟩, ⟨7, 3, true⟩] none) = 1 ∧
    (processChain [⟨7, 3, true⟩, ⟨7, 3, true⟩] none).getLast?
      = some (NodeKind.SimpleDeclaration, NodeRole.Detached) :=
  ⟨by decide, by decide,
    (processChain_single_declaration 7 3 [⟨7, 3, true⟩, ⟨7, 3, true⟩] none
      (by decide) (by decide) fun a h => Option.noConfusion h).1,
    (processChain_single_declaration 7 3 [⟨7, 3, true⟩, ⟨7, 3, true⟩] none
      (by decide) (by decide) fun a h => Option.noConfusion h).2.1⟩

/-- Claim C7: the operator-call traversal iterates over the call's arguments
and skips exactly those whose source range is invalid: whenever the loop
completes (`some l`), the visited arguments `l` are precisely the arguments
with a valid range, in order, so no subtree is ever built for a skipped
synthetic argument; and if some argument had an invalid range, the call
necessarily classified as a `PostfixUnaryOperatorExpression` (the source's
assertion), i.e. the skipped argument is the synthetic second operand of
postfix `++`/`--`. -/
theorem traverseCXXOperatorCallExpr_spec (op : OverloadedOperatorKind)
    (args l : List OperatorCallArg)
    (h : traverseCXXOperatorCallExpr op args = some l) :
    l = args.filter (fun a => a.rangeValid) ∧
    (∀ a ∈ args, a.rangeValid = false → a ∉ l) ∧
    ((∃ a ∈ args, a.rangeValid = false) →
      getOperatorNodeKind op args.length
        = some NodeKind.PostfixUnaryOperatorExpression) := by
  have main : ∀ (opKind : Option NodeKind) (as l' : List OperatorCallArg),
      traverseOperatorCallArgs opKind as = some l' →
      l' = as.filter (fun a => a.rangeValid) ∧
      ((∃ a ∈ as, a.rangeValid = false) →
        opKind = some NodeKind.PostfixUnaryOperatorExpression) := by
    intro opKind as
    induction as with
    | nil =>
        intro l' h'
        simp only [traverseOperatorCallArgs, Option.some.injEq] at h'
        simp [← h']
    | cons a rest ih =>
        intro l' h'
        by_cases hv : a.rangeValid
        · simp only [traverseOperatorCallArgs, hv, if_true, reduceIte,
            Option.map_eq_some'] at h'
          obtain ⟨l'', hl'', heq⟩ := h'
          obtain ⟨ih1, ih2⟩ := ih l'' hl''
          subst heq
          constructor
          · simp [List.filter_cons, hv, ih1]
          · intro ⟨x, hx, hxv⟩
            rcases List.mem_cons.mp hx with h | h
            · subst h
              rw [hv] at hxv
              exact absurd hxv (by simp)
            · exact ih2 ⟨x, h, hxv⟩
        · rw [Bool.not_eq_true] at hv
          by_cases hop : opKind = some NodeKind.PostfixUnaryOperatorExpression
          · subst hop
            simp only [traverseOperatorCallArgs, hv, Bool.false_eq_true,
              if_false, reduceIte] at h'
            obtain ⟨ih1, _⟩ := ih l' h'
            refine ⟨?_, fun _ => rfl⟩
            simp [List.filter_cons, hv, ih1]
          · simp [traverseOperatorCallArgs, hv, hop] at h'
  obtain ⟨h1, h2⟩ := main (getOperatorNodeKind op args.length) args l h
  refine ⟨h1, ?_, h2⟩
  intro a ha hav hmem
  rw [h1] at hmem
  have := (List.mem_filter.mp hmem).2
  rw [hav] at this
  exact absurd this (by simp)

/-- Witness for C7: the postfix call `a++` — operator `++` with two arguments,
the second the synthetic placeholder at an invalid location — visits only the
first argument, the synthetic one is absent from the visited list, and the
call classifies as a postfix unary operator. -/
theorem traverseCXXOperatorCallExpr_spec_witness :
    traverseCXXOperatorCallExpr .OO_PlusPlus
        [⟨true, 0⟩, ⟨false, 1⟩] = some [⟨true, 0⟩] ∧
    (∀ a ∈ ([⟨true, 0⟩, ⟨false, 1⟩] : List OperatorCallArg),
      a.rangeValid = false → a ∉ ([⟨true, 0⟩] : List OperatorCallArg)) ∧
    getOperatorNodeKind .OO_PlusPlus
        ([⟨true, 0⟩, ⟨false, 1⟩] : List OperatorCallArg).length
      = some NodeKind.PostfixUnaryOperatorExpression :=
  ⟨by decide,
    (traverseCXXOperatorCallExpr_spec .OO_PlusPlus
      [⟨true, 0⟩, ⟨false, 1⟩] [⟨true, 0⟩] (by decide)).2.1,
    (traverseCXXOperatorCallExpr_spec .OO_PlusPlus
      [⟨true, 0⟩, ⟨false, 1⟩] [⟨true, 0⟩] (by decide)).2.2
      ⟨⟨false, 1⟩, by decide, rfl⟩⟩

end BuildTree
